import Mathlib

/-!
Verification of the scarb-eject metadata-to-configuration resolution engine.

The Rust sources (`src/main.rs`, `src/utils.rs`) are shallowly embedded below:
metadata records become Lean structures, the ordered hash maps of the output
configuration become association lists built by an insert-or-overwrite fold
(mirroring indexmap `collect` semantics: the first occurrence of a key fixes
its position, a later occurrence overwrites the value), and the fallible serde
round trips become `Option`-valued functions.
-/

namespace ScarbEject

/-- A conditional-compilation entry as `scarb_metadata::Cfg` models it:
either a bare flag name or a key/value pair. -/
inductive ScarbCfg where
  | flag (s : String)
  | kv (k v : String)
deriving DecidableEq, Repr

/-- A conditional-compilation entry in the compiler's native representation
(`cairo_lang_filesystem::cfg::Cfg`): a key with an optional value. -/
structure CairoCfg where
  key : String
  value : Option String
deriving DecidableEq, Repr

/-- The compiler's language-edition enum (`cairo_lang_filesystem::db::Edition`). -/
inductive Edition where
  | V2023_01
  | V2023_10
  | V2023_11
  | V2024_07
deriving DecidableEq, Repr

/-- The compiler's default edition (`Edition::default()` in
`cairo_lang_filesystem`, marked `#[default]` on the 2023-01 variant). -/
def Edition.default : Edition := .V2023_01

/-- Models serde deserialization of `cairo_lang_filesystem::db::Edition`
from its JSON string representation: the renamed variant tags are the
four known edition identifiers; anything else is a deserialization error. -/
def parseEdition : String → Option Edition
  | "2023_01" => some .V2023_01
  | "2023_10" => some .V2023_10
  | "2023_11" => some .V2023_11
  | "2024_07" => some .V2024_07
  | _ => none

/-- Models serde serialization of a `scarb_metadata::Cfg` entry, which renders
as a plain JSON string: a bare flag serializes to its name, a key/value pair
to `key="value"`. -/
def serializeScarbCfg : ScarbCfg → String
  | .flag s => s
  | .kv k v => k ++ "=\"" ++ v ++ "\""

/-- Split a character list at its first `=`, returning the parts before and
after it, or `none` when no `=` occurs. -/
def splitFirstEq : List Char → Option (List Char × List Char)
  | [] => none
  | c :: rest =>
    if c = '=' then some ([], rest)
    else (splitFirstEq rest).map (fun p => (c :: p.1, p.2))

/-- Models serde deserialization of a `cairo_lang_filesystem` cfg entry from a
JSON string: no `=` yields a bare key; otherwise the part after the first `=`
must be a quoted string, and a malformed remainder is a deserialization
error. -/
def parseCairoCfg (s : String) : Option CairoCfg :=
  match splitFirstEq s.data with
  | none => some ⟨s, none⟩
  | some (k, v) =>
    match v with
    | [] => none
    | q1 :: rest =>
      if q1 = '\"' ∧ rest ≠ [] ∧ rest.getLast? = some '\"' then
        some ⟨⟨k⟩, some ⟨rest.dropLast⟩⟩
      else none

/-- `scarb_metadata::CompilationUnitComponentDependencyMetadata`: a reference
to a sibling component, carried as that component's id. -/
structure DependencyMeta where
  id : String
deriving DecidableEq, Repr

/-- `scarb_metadata::CompilationUnitComponentMetadata`. `source_root` models
the `source_root()` accessor (the parent directory of the component's source
path). -/
structure ComponentMeta where
  name : String
  package : String
  source_root : String
  discriminator : Option String
  cfg : Option (List ScarbCfg)
  dependencies : Option (List DependencyMeta)
  id : Option String
deriving DecidableEq, Repr

/-- The target of a compilation unit; the selector in `main` keys on its
`name`. -/
structure TargetMeta where
  name : String
deriving DecidableEq, Repr

/-- `scarb_metadata::CompilationUnitMetadata`. -/
structure CompilationUnitMeta where
  package : String
  target : TargetMeta
  components : List ComponentMeta
  cfg : List ScarbCfg
deriving DecidableEq, Repr

/-- `scarb_metadata::PackageMetadata` (the fields this program reads). -/
structure PackageMeta where
  id : String
  name : String
  version : String
  edition : Option String
  experimental_features : List String
deriving DecidableEq, Repr

/-- `scarb_metadata::Metadata` (the fields this program reads). -/
structure Metadata where
  packages : List PackageMeta
  compilation_units : List CompilationUnitMeta
deriving DecidableEq, Repr

/-- `cairo_lang_filesystem::db::DependencySettings`. -/
structure DependencySettings where
  discriminator : Option String
deriving DecidableEq, Repr

/-- `cairo_lang_filesystem::db::ExperimentalFeaturesConfig`, with the two
fields this program constructs. -/
structure ExperimentalFeaturesConfig where
  negative_impls : Bool
  coupons : Bool
deriving DecidableEq, Repr

/-- `cairo_lang_filesystem::db::CrateSettings`. -/
structure CrateSettings where
  name : Option String
  edition : Edition
  version : Option String
  cfg_set : Option (List CairoCfg)
  dependencies : List (String × DependencySettings)
  experimental_features : ExperimentalFeaturesConfig
deriving DecidableEq, Repr

/-- One insertion into an `OrderedHashMap` (indexmap semantics): an existing
key keeps its position and has its value overwritten; a new key is appended. -/
def ohmInsert {α : Type} (m : List (String × α)) (k : String) (v : α) :
    List (String × α) :=
  if m.any (fun p => p.1 == k) then
    m.map (fun p => if p.1 == k then (k, v) else p)
  else
    m ++ [(k, v)]

/-- `collect` of a pair iterator into an `OrderedHashMap`: left fold of
`ohmInsert` from the empty map. -/
def ohmCollect {α : Type} (l : List (String × α)) : List (String × α) :=
  l.foldl (fun m p => ohmInsert m p.1 p.2) []

/-- `AllCratesConfig` from `cairo_lang_project`. -/
structure AllCratesConfig where
  global : CrateSettings
  override_map : List (String × CrateSettings)
deriving DecidableEq, Repr

/-- `ProjectConfigContent` from `cairo_lang_project`. -/
structure ProjectConfigContent where
  crate_roots : List (String × String)
  crates_config : AllCratesConfig
deriving DecidableEq, Repr

/-- `get_edition` from `main.rs`: take the package's declared edition string,
deserialize it, and fall back to the compiler's default edition when the
package is absent, the field is absent, or deserialization fails. -/
def get_edition (package : Option PackageMeta) (_crate_name : String) : Edition :=
  (((package.bind (fun p => p.edition)).bind parseEdition)).getD Edition.default

/-- Whether `get_edition` emits its warning: the `inspect_err` in `main.rs`
fires exactly when an edition value was present but failed to deserialize. -/
def get_edition_warns (package : Option PackageMeta) : Bool :=
  match package.bind (fun p => p.edition) with
  | none => false
  | some s => (parseEdition s).isNone

/-- Models serde deserialization of a JSON array of cfg strings into the
native cfg-set representation: every element must deserialize, and the first
failure fails the whole list. -/
def parseCairoCfgList : List String → Option (List CairoCfg)
  | [] => some []
  | s :: rest =>
    (parseCairoCfg s).bind
      (fun c => (parseCairoCfgList rest).map (fun cs => c :: cs))

/-- `scarb_cfg_set_to_cairo` from `main.rs`: serialize the scarb cfg list
generically and deserialize it natively; a structurally incompatible list
yields `none` (with a logged warning) instead of an error. -/
def scarb_cfg_set_to_cairo (cfg_set : List ScarbCfg) (_crate_name : String) :
    Option (List CairoCfg) :=
  parseCairoCfgList (cfg_set.map serializeScarbCfg)

/-- Whether `scarb_cfg_set_to_cairo` emits its warning: the `inspect_err` in
`main.rs` fires exactly when the round trip fails. -/
def scarb_cfg_set_to_cairo_warns (cfg_set : List ScarbCfg) : Bool :=
  (parseCairoCfgList (cfg_set.map serializeScarbCfg)).isNone

/-- `get_experimental_features` from `main.rs`: membership tests of the two
fixed flag names against the package's declared experimental-feature list;
an absent package yields all-false flags. -/
def get_experimental_features (package : Option PackageMeta) :
    ExperimentalFeaturesConfig :=
  let contains := fun (feature : String) =>
    match package with
    | none => false
    | some p => p.experimental_features.contains feature
  { negative_impls := contains "negative_impls"
    coupons := contains "coupons" }

/-- `get_crate_roots` from `main.rs`: each non-`core` component's name mapped
to its source root, collected in component order. -/
def get_crate_roots (compilation_unit_metadata : CompilationUnitMeta) :
    List (String × String) :=
  ohmCollect
    ((compilation_unit_metadata.components.filter (fun c => c.name != "core")).map
      (fun c => (c.name, c.source_root)))

/-- `get_global_crate_settings` from `main.rs`. -/
def get_global_crate_settings (compilation_unit : CompilationUnitMeta)
    (package : PackageMeta) : CrateSettings :=
  { name := none
    edition := get_edition (some package) package.name
    version := some package.version
    cfg_set := scarb_cfg_set_to_cairo compilation_unit.cfg package.name
    dependencies :=
      ohmCollect
        ((compilation_unit.components.filter (fun c => c.name != "core")).map
          (fun c => (c.name, ⟨c.discriminator⟩)))
    experimental_features := get_experimental_features (some package) }

/-- The inner `find_map` of the dependency loop in
`get_crate_settings_for_component`: resolve one declared dependency id against
the non-`core` components of the unit, producing the first matching
component's name and discriminator. -/
def resolveDep (unit : CompilationUnitMeta) (depId : String) :
    Option (String × DependencySettings) :=
  (unit.components.filter (fun c => c.name != "core")).findSome?
    (fun c => c.id.bind (fun componentId =>
      if componentId == depId then some (c.name, ⟨c.discriminator⟩) else none))

/-- `get_crate_settings_for_component` from `main.rs`. -/
def get_crate_settings_for_component (component : ComponentMeta)
    (unit : CompilationUnitMeta) (metadata : Metadata) : CrateSettings :=
  let package := metadata.packages.find? (fun p => p.id == component.package)
  { name := some component.name
    edition := get_edition package component.name
    version := package.map (fun p => p.version)
    cfg_set :=
      component.cfg.bind (fun cfg => scarb_cfg_set_to_cairo cfg component.name)
    dependencies :=
      ohmCollect
        ((component.dependencies.getD []).filterMap
          (fun d => resolveDep unit d.id))
    experimental_features := get_experimental_features package }

/-- `get_crates_config` from `main.rs`. -/
def get_crates_config (metadata : Metadata)
    (compilation_unit : CompilationUnitMeta) (main_package : PackageMeta) :
    AllCratesConfig :=
  { global := get_global_crate_settings compilation_unit main_package
    override_map :=
      ohmCollect
        ((compilation_unit.components.filter (fun c => c.name != "core")).map
          (fun component =>
            (component.name,
              get_crate_settings_for_component component compilation_unit
                metadata))) }

/-- `get_project_config` from `main.rs`. -/
def get_project_config (metadata : Metadata)
    (compilation_unit : CompilationUnitMeta) (main_package : PackageMeta) :
    ProjectConfigContent :=
  { crate_roots := get_crate_roots compilation_unit
    crates_config := get_crates_config metadata compilation_unit main_package }

/-- The priority key of the `min_by_key` in `main`: target name
`"starknet-contract"` ranks 0, `"lib"` ranks 1, anything else ranks 2, with
the target name itself as the second component. -/
def unitKey (u : CompilationUnitMeta) : Nat × String :=
  match u.target.name with
  | "starknet-contract" => (0, u.target.name)
  | "lib" => (1, u.target.name)
  | _ => (2, u.target.name)

/-- Strict order on priority keys: Rust's derived lexicographic order on
`(u8, &str)`. -/
def keyLt (a b : Nat × String) : Prop :=
  a.1 < b.1 ∨ (a.1 = b.1 ∧ a.2 < b.2)

instance (a b : Nat × String) : Decidable (keyLt a b) := by
  unfold keyLt; infer_instance

/-- Non-strict order on priority keys. -/
def keyLe (a b : Nat × String) : Prop :=
  a.1 < b.1 ∨ (a.1 = b.1 ∧ a.2 ≤ b.2)

/-- `Iterator::min_by_key` on a nonempty remainder: keep the current best
unless a later element's key is strictly smaller (so the first of equal
minima wins, as in Rust). -/
def minByKeyAux (best : CompilationUnitMeta) :
    List CompilationUnitMeta → CompilationUnitMeta
  | [] => best
  | u :: rest =>
    if keyLt (unitKey u) (unitKey best) then minByKeyAux u rest
    else minByKeyAux best rest

/-- `Iterator::min_by_key` over `unitKey`. -/
def minByKey : List CompilationUnitMeta → Option CompilationUnitMeta
  | [] => none
  | u :: rest => some (minByKeyAux u rest)

/-- The fatal error of the selector in `main`: no compilation unit suitable
for ejection, naming the package. -/
inductive SelectError where
  | notFound (packageId : String)
deriving DecidableEq, Repr

/-- The compilation units owned by the requested package, in snapshot order
(the `filter` in `main`). -/
def unitsFor (metadata : Metadata) (mainPackageId : String) :
    List CompilationUnitMeta :=
  metadata.compilation_units.filter (fun u => u.package == mainPackageId)

/-- The compilation-unit selection in `main`: filter to the main package's
units, take the minimum by `unitKey`, and fail with a NotFound error naming
the package when nothing is left. -/
def select_compilation_unit (metadata : Metadata) (mainPackageId : String) :
    Except SelectError CompilationUnitMeta :=
  match minByKey (unitsFor metadata mainPackageId) with
  | some u => .ok u
  | none => .error (.notFound mainPackageId)

namespace utils

/-- `scarb_package_edition` from `utils.rs`: identical logic to `get_edition`
in `main.rs`. -/
def scarb_package_edition (package : Option PackageMeta) (_crate_name : String) :
    Edition :=
  (((package.bind (fun p => p.edition)).bind parseEdition)).getD Edition.default

/-- `scarb_cfg_set_to_cairo` from `utils.rs`: identical logic to the function
of the same name in `main.rs`. -/
def scarb_cfg_set_to_cairo (cfg_set : List ScarbCfg) (_crate_name : String) :
    Option (List CairoCfg) :=
  parseCairoCfgList (cfg_set.map serializeScarbCfg)

/-- `scarb_package_experimental_features` from `utils.rs`: the same two
membership tests as `get_experimental_features` in `main.rs`, written with
`iter().any`. -/
def scarb_package_experimental_features (package : Option PackageMeta) :
    ExperimentalFeaturesConfig :=
  let contains := fun (feature : String) =>
    match package with
    | none => false
    | some p => p.experimental_features.any (fun f => f == feature)
  { negative_impls := contains "negative_impls"
    coupons := contains "coupons" }

end utils

/-! ### Concrete sample snapshots used to exercise the theorems -/

/-- A sample main package. -/
def samplePackage : PackageMeta :=
  { id := "pkg-p", name := "p", version := "1.0.0",
    edition := some "2024_07", experimental_features := [] }

/-- The reserved standard-library component. -/
def coreComponent : ComponentMeta :=
  { name := "core", package := "pkg-core", source_root := "/core/src",
    discriminator := none, cfg := none, dependencies := none,
    id := some "id-core" }

/-- A sample sibling component with a discriminator. -/
def qComponent : ComponentMeta :=
  { name := "q", package := "pkg-q", source_root := "/q/src",
    discriminator := some "dq", cfg := none, dependencies := none,
    id := some "id-q" }

/-- The main package's component: depends on `q`, on `core`, and on a
dangling component id. -/
def pComponent : ComponentMeta :=
  { name := "p", package := "pkg-p", source_root := "/p/src",
    discriminator := some "dp", cfg := none,
    dependencies := some [⟨"id-q"⟩, ⟨"id-core"⟩, ⟨"id-miss"⟩],
    id := some "id-p" }

/-- A component whose cfg list cannot round-trip: the bare flag `a=b`
serializes to a string the native representation rejects. -/
def badCfgComponent : ComponentMeta :=
  { name := "b", package := "pkg-b", source_root := "/b/src",
    discriminator := none, cfg := some [ScarbCfg.flag "a=b"],
    dependencies := none, id := some "id-b" }

/-- A `lib`-target compilation unit of the sample package. -/
def sampleLibUnit : CompilationUnitMeta :=
  { package := "pkg-p", target := ⟨"lib"⟩,
    components := [coreComponent, pComponent, qComponent, badCfgComponent],
    cfg := [] }

/-- A `starknet-contract`-target compilation unit of the sample package. -/
def sampleContractUnit : CompilationUnitMeta :=
  { package := "pkg-p", target := ⟨"starknet-contract"⟩,
    components := [coreComponent, pComponent, qComponent],
    cfg := [ScarbCfg.kv "target" "starknet-contract"] }

/-- A sample snapshot with both units, `lib` listed first. -/
def sampleMetadata : Metadata :=
  { packages := [samplePackage],
    compilation_units := [sampleLibUnit, sampleContractUnit] }

/-- A package with no declared edition. -/
def pkgNoEdition : PackageMeta :=
  { id := "e0", name := "e0", version := "0.1.0", edition := none,
    experimental_features := [] }

/-- A package with an unrecognized edition string. -/
def pkgBadEdition : PackageMeta :=
  { id := "e1", name := "e1", version := "0.1.0", edition := some "bogus",
    experimental_features := [] }

/-- A package with a valid edition string. -/
def pkgGoodEdition : PackageMeta :=
  { id := "e2", name := "e2", version := "0.1.0", edition := some "2024_07",
    experimental_features := [] }

/-- A package declaring the `negative_impls` experimental feature. -/
def pkgNegImpls : PackageMeta :=
  { id := "f1", name := "f1", version := "0.1.0", edition := none,
    experimental_features := ["negative_impls"] }

/-- A package declaring only `associated_item_constraints`. -/
def pkgAssocItem : PackageMeta :=
  { id := "f2", name := "f2", version := "0.1.0", edition := none,
    experimental_features := ["associated_item_constraints"] }

/-! ### Library lemmas about the ordered-map embedding -/

/-- One key-level step of an ordered-map insertion: an existing key leaves the
key list unchanged, a new key is appended. -/
def ohmKeysStep (ks : List String) (k : String) : List String :=
  if ks.any (fun x => x == k) then ks else ks ++ [k]

/-- The key list of an ordered map collected from `l`: first occurrences of
keys of `l`, in order. -/
def ohmKeys (l : List String) : List String :=
  l.foldl ohmKeysStep []

lemma ohmInsert_keys {α : Type} (m : List (String × α)) (k : String) (v : α) :
    (ohmInsert m k v).map Prod.fst = ohmKeysStep (m.map Prod.fst) k := by
  unfold ohmInsert ohmKeysStep
  have hany : (m.map Prod.fst).any (fun x => x == k) = m.any (fun p => p.1 == k) := by
    induction m with
    | nil => rfl
    | cons p t ih => simp [List.any_cons, ih]
  rw [hany]
  by_cases h : m.any (fun p => p.1 == k)
  · simp only [h, if_pos]
    rw [List.map_map]
    apply List.map_congr_left
    intro p _
    simp only [Function.comp]
    by_cases hp : p.1 = k
    · simp [hp]
    · simp [hp]
  · simp [h]

lemma ohmFold_keys {α : Type} (l : List (String × α)) (acc : List (String × α)) :
    ((l.foldl (fun m p => ohmInsert m p.1 p.2) acc).map Prod.fst)
      = (l.map Prod.fst).foldl ohmKeysStep (acc.map Prod.fst) := by
  induction l generalizing acc with
  | nil => rfl
  | cons p t ih =>
    simp only [List.foldl_cons, List.map_cons]
    rw [ih, ohmInsert_keys]

lemma ohmCollect_keys {α : Type} (l : List (String × α)) :
    (ohmCollect l).map Prod.fst = ohmKeys (l.map Prod.fst) := by
  simpa using ohmFold_keys l []

lemma mem_ohmInsert {α : Type} {e : String × α} {m : List (String × α)}
    {k : String} {v : α} (h : e ∈ ohmInsert m k v) : e ∈ m ∨ e = (k, v) := by
  unfold ohmInsert at h
  by_cases hg : m.any (fun p => p.1 == k)
  · rw [if_pos hg] at h
    rcases List.mem_map.mp h with ⟨p, hp, hpe⟩
    by_cases hk : p.1 == k
    · right; rw [← hpe]; simp [hk]
    · left; rw [← hpe]; simpa [hk] using hp
  · rw [if_neg hg] at h
    rcases List.mem_append.mp h with h1 | h2
    · exact Or.inl h1
    · right; simpa using h2

lemma mem_ohmFold {α : Type} {e : String × α} {l acc : List (String × α)}
    (h : e ∈ l.foldl (fun m p => ohmInsert m p.1 p.2) acc) :
    e ∈ acc ∨ e ∈ l := by
  induction l generalizing acc with
  | nil => exact Or.inl h
  | cons p t ih =>
    simp only [List.foldl_cons] at h
    rcases ih h with h1 | h2
    · rcases mem_ohmInsert h1 with ha | hb
      · exact Or.inl ha
      · exact Or.inr (by simp [hb])
    · exact Or.inr (List.mem_cons_of_mem _ h2)

lemma mem_ohmCollect {α : Type} {e : String × α} {l : List (String × α)}
    (h : e ∈ ohmCollect l) : e ∈ l := by
  rcases mem_ohmFold h with h1 | h2
  · simp at h1
  · exact h2

lemma mem_keys_ohmCollect {α : Type} {k : String} {l : List (String × α)}
    (h : k ∈ (ohmCollect l).map Prod.fst) : k ∈ l.map Prod.fst := by
  rcases List.mem_map.mp h with ⟨e, he, hk⟩
  exact List.mem_map.mpr ⟨e, mem_ohmCollect he, hk⟩

/-! ### Library lemmas about the priority-key order -/

lemma keyLt_irrefl (a : Nat × String) : ¬ keyLt a a := by
  simp [keyLt]

lemma keyLt_trans {a b c : Nat × String} (h1 : keyLt a b) (h2 : keyLt b c) :
    keyLt a c := by
  rcases h1 with h1 | ⟨h1e, h1s⟩ <;> rcases h2 with h2 | ⟨h2e, h2s⟩
  · exact Or.inl (lt_trans h1 h2)
  · exact Or.inl (h2e ▸ h1)
  · exact Or.inl (h1e ▸ h2)
  · exact Or.inr ⟨h1e.trans h2e, lt_trans h1s h2s⟩

lemma keyLe_of_not_keyLt {a b : Nat × String} (h : ¬ keyLt a b) : keyLe b a := by
  unfold keyLt at h
  push_neg at h
  obtain ⟨h1, h2⟩ := h
  rcases Nat.lt_or_ge b.1 a.1 with hlt | hge
  · exact Or.inl hlt
  · have he : a.1 = b.1 := by omega
    exact Or.inr ⟨he.symm, le_of_not_lt (h2 he)⟩

lemma keyLt_of_keyLe_of_keyLt {a b c : Nat × String} (h1 : keyLe a b)
    (h2 : keyLt b c) : keyLt a c := by
  rcases h1 with h1 | ⟨h1e, h1s⟩ <;> rcases h2 with h2 | ⟨h2e, h2s⟩
  · exact Or.inl (lt_trans h1 h2)
  · exact Or.inl (h2e ▸ h1)
  · exact Or.inl (h1e ▸ h2)
  · exact Or.inr ⟨h1e.trans h2e, lt_of_le_of_lt h1s h2s⟩

/-! ### Library lemmas about the selector's minimum fold -/

lemma minByKeyAux_mem (l : List CompilationUnitMeta) :
    ∀ best, minByKeyAux best l ∈ best :: l := by
  induction l with
  | nil => intro best; simp [minByKeyAux]
  | cons u rest ih =>
    intro best
    unfold minByKeyAux
    by_cases h : keyLt (unitKey u) (unitKey best)
    · rw [if_pos h]
      rcases List.mem_cons.mp (ih u) with h1 | h2
      · simp [h1]
      · simp [List.mem_cons_of_mem _ h2]
    · rw [if_neg h]
      rcases List.mem_cons.mp (ih best) with h1 | h2
      · simp [h1]
      · simp [List.mem_cons_of_mem _ (List.mem_cons_of_mem _ h2)]

lemma minByKeyAux_min (l : List CompilationUnitMeta) :
    ∀ best, ∀ v ∈ best :: l,
      ¬ keyLt (unitKey v) (unitKey (minByKeyAux best l)) := by
  induction l with
  | nil =>
    intro best v hv
    rcases List.mem_cons.mp hv with h1 | h2
    · rw [h1]; exact keyLt_irrefl _
    · simp at h2
  | cons u rest ih =>
    intro best v hv
    unfold minByKeyAux
    by_cases h : keyLt (unitKey u) (unitKey best)
    · rw [if_pos h]
      rcases List.mem_cons.mp hv with h1 | h2
      · subst h1
        intro hc
        exact ih u u (by simp) (keyLt_trans h hc)
      · exact ih u v h2
    · rw [if_neg h]
      rcases List.mem_cons.mp hv with h1 | h2
      · subst h1; exact ih v v (by simp)
      · rcases List.mem_cons.mp h2 with h3 | h4
        · subst h3
          intro hc
          exact ih best best (by simp)
            (keyLt_of_keyLe_of_keyLt (keyLe_of_not_keyLt h) hc)
        · exact ih best v (List.mem_cons_of_mem _ h4)

/-! ### Library lemmas about the cfg round trip, selector and joins -/

lemma option_some_bind {α β : Type} (a : α) (f : α → Option β) :
    (some a).bind f = f a := rfl

lemma parseCairoCfgList_isSome_iff (l : List String) :
    (parseCairoCfgList l).isSome = true ↔
      ∀ s ∈ l, (parseCairoCfg s).isSome = true := by
  induction l with
  | nil => simp [parseCairoCfgList]
  | cons s t ih =>
    cases hs : parseCairoCfg s with
    | none => simp [parseCairoCfgList, hs]
    | some c =>
      cases ht : parseCairoCfgList t with
      | none =>
        simp [parseCairoCfgList, hs, ht, List.forall_mem_cons, ← ih]
      | some cs =>
        simp [parseCairoCfgList, hs, ht, List.forall_mem_cons, ← ih]

lemma minByKey_none_iff (l : List CompilationUnitMeta) :
    minByKey l = none ↔ l = [] := by
  cases l <;> simp [minByKey]

lemma minByKey_some_spec {l : List CompilationUnitMeta}
    {u : CompilationUnitMeta} (h : minByKey l = some u) :
    u ∈ l ∧ ∀ v ∈ l, keyLe (unitKey u) (unitKey v) := by
  cases l with
  | nil => simp [minByKey] at h
  | cons a t =>
    simp only [minByKey, Option.some.injEq] at h
    subst h
    refine ⟨minByKeyAux_mem t a, ?_⟩
    intro v hv
    exact keyLe_of_not_keyLt (minByKeyAux_min t a v hv)

lemma resolveDep_some_spec {unit : CompilationUnitMeta} {depId : String}
    {e : String × DependencySettings} (h : resolveDep unit depId = some e) :
    ∃ c ∈ unit.components, c.name ≠ "core" ∧ c.id = some depId ∧
      e.1 = c.name ∧ e.2.discriminator = c.discriminator := by
  obtain ⟨c, hc, hcf⟩ := List.exists_of_findSome?_eq_some h
  have hmem := (List.mem_filter.mp hc).1
  have hncore : c.name ≠ "core" := by
    have := (List.mem_filter.mp hc).2
    simpa using this
  refine ⟨c, hmem, hncore, ?_⟩
  cases hid : c.id with
  | none => rw [hid] at hcf; simp at hcf
  | some cid =>
    rw [hid, option_some_bind] at hcf
    by_cases hq : cid == depId
    · rw [if_pos hq] at hcf
      have hcid : cid = depId := by simpa using hq
      cases hcf
      exact ⟨by rw [hcid], rfl, rfl⟩
    · rw [if_neg hq] at hcf
      simp at hcf

lemma resolveDep_none_of_no_match {unit : CompilationUnitMeta} {depId : String}
    (h : ∀ c ∈ unit.components, c.name ≠ "core" → c.id ≠ some depId) :
    resolveDep unit depId = none := by
  apply List.findSome?_eq_none_iff.mpr
  intro c hc
  have hmem := (List.mem_filter.mp hc).1
  have hncore : c.name ≠ "core" := by simpa using (List.mem_filter.mp hc).2
  show c.id.bind (fun componentId =>
    if componentId == depId then
      some (c.name, ({ discriminator := c.discriminator } : DependencySettings))
    else none) = none
  cases hid : c.id with
  | none => rfl
  | some cid =>
    rw [option_some_bind]
    have hne : cid ≠ depId := by
      intro he
      exact h c hmem hncore (by rw [hid, he])
    rw [if_neg (by simpa using hne)]

/-! ### Claim theorems -/

/-- C1: For every metadata snapshot and target package id, the
compilation-unit selector returns a unit among those whose owning package
equals the target id that minimizes the priority key (target kind
`starknet-contract` ranks 0, `lib` ranks 1, anything else ranks 2, ties
within a rank broken by lexicographic comparison of the target kind name),
and fails with a NotFound error naming the package when zero units match. -/
theorem selector_min_and_notFound (m : Metadata) (pid : String) :
    (∀ u, select_compilation_unit m pid = .ok u →
        u ∈ unitsFor m pid ∧ ∀ v ∈ unitsFor m pid, keyLe (unitKey u) (unitKey v))
    ∧ (∀ e, select_compilation_unit m pid = .error e →
        e = .notFound pid ∧ unitsFor m pid = [])
    ∧ (unitsFor m pid = [] →
        select_compilation_unit m pid = .error (.notFound pid)) := by
  unfold select_compilation_unit
  cases hm : minByKey (unitsFor m pid) with
  | none =>
    refine ⟨?_, ?_, ?_⟩
    · intro u hu; cases hu
    · intro e he
      cases he
      exact ⟨rfl, (minByKey_none_iff _).mp hm⟩
    · intro _; rfl
  | some u0 =>
    refine ⟨?_, ?_, ?_⟩
    · intro u hu
      cases hu
      exact minByKey_some_spec hm
    · intro e he; cases he
    · intro hnil
      rw [hnil] at hm
      simp [minByKey] at hm

/-- Witness for C1: on the sample snapshot holding a `lib` unit and a
`starknet-contract` unit for the same package (`lib` listed first), the
selector picks the `starknet-contract` unit, which belongs to the filtered
unit list and minimizes the priority key. -/
theorem selector_min_and_notFound_witness :
    sampleContractUnit ∈ unitsFor sampleMetadata "pkg-p"
    ∧ ∀ v ∈ unitsFor sampleMetadata "pkg-p",
        keyLe (unitKey sampleContractUnit) (unitKey v) :=
  (selector_min_and_notFound sampleMetadata "pkg-p").1 sampleContractUnit rfl

/-- C2: for every snapshot, compilation unit and main package, the resolved
configuration's `crate_roots` and the `crates_config` override map have
identical key sequences (one override entry per non-excluded component). -/
theorem crate_roots_override_map_keys_eq (m : Metadata)
    (cu : CompilationUnitMeta) (p : PackageMeta) :
    ((get_project_config m cu p).crate_roots).map Prod.fst
      = ((get_project_config m cu p).crates_config.override_map).map Prod.fst := by
  show (get_crate_roots cu).map Prod.fst
      = (get_crates_config m cu p).override_map.map Prod.fst
  unfold get_crate_roots get_crates_config
  rw [ohmCollect_keys, ohmCollect_keys, List.map_map, List.map_map]
  rfl

/-- C9: resolution is a deterministic pure function: two runs of the
configuration derivation on the same snapshot, compilation unit and main
package yield identical configuration values. -/
theorem resolution_deterministic (m : Metadata) (cu : CompilationUnitMeta)
    (p : PackageMeta) :
    get_project_config m cu p = get_project_config m cu p := rfl

/-- C10: in every resolved configuration, the global settings record's name
field is `none`, while each per-component override record's name field is
`some` of that component's name, equal to its key in the override map. -/
theorem settings_name_fields (m : Metadata) (cu : CompilationUnitMeta)
    (p : PackageMeta) :
    (get_project_config m cu p).crates_config.global.name = none
    ∧ ((get_project_config m cu p).crates_config.override_map).all
        (fun e => e.2.name == some e.1) = true := by
  constructor
  · rfl
  · apply List.all_eq_true.mpr
    intro e he
    have hin := mem_ohmCollect he
    rcases List.mem_map.mp hin with ⟨c, _, hce⟩
    rw [← hce]
    simp [get_crate_settings_for_component]

/-- C3: the reserved standard-library component `core` never appears as a
key in `crate_roots`, in the global settings record's dependency mapping, in
the override map, or in any override record's dependency mapping. -/
theorem core_excluded_everywhere (m : Metadata) (cu : CompilationUnitMeta)
    (p : PackageMeta) :
    (((get_project_config m cu p).crate_roots).map Prod.fst).all
        (fun k => k != "core") = true
    ∧ (((get_project_config m cu p).crates_config.global.dependencies).map
        Prod.fst).all (fun k => k != "core") = true
    ∧ (((get_project_config m cu p).crates_config.override_map).map
        Prod.fst).all (fun k => k != "core") = true
    ∧ ((get_project_config m cu p).crates_config.override_map).all
        (fun e => (e.2.dependencies.map Prod.fst).all
          (fun k => k != "core")) = true := by
  have hfiltered : ∀ (k : String),
      k ∈ (cu.components.filter (fun c => c.name != "core")).map
        (fun c => c.name) → (k != "core") = true := by
    intro k hk
    rcases List.mem_map.mp hk with ⟨c, hc, hck⟩
    rw [← hck]
    exact (List.mem_filter.mp hc).2
  refine ⟨?_, ?_, ?_, ?_⟩
  · apply List.all_eq_true.mpr
    intro k hk
    apply hfiltered
    have := mem_keys_ohmCollect (l :=
      (cu.components.filter (fun c => c.name != "core")).map
        (fun c => (c.name, c.source_root))) hk
    rw [List.map_map] at this
    exact this
  · apply List.all_eq_true.mpr
    intro k hk
    apply hfiltered
    have := mem_keys_ohmCollect (l :=
      (cu.components.filter (fun c => c.name != "core")).map
        (fun c => (c.name,
          ({ discriminator := c.discriminator } : DependencySettings)))) hk
    rw [List.map_map] at this
    exact this
  · apply List.all_eq_true.mpr
    intro k hk
    apply hfiltered
    have := mem_keys_ohmCollect (l :=
      (cu.components.filter (fun c => c.name != "core")).map
        (fun component => (component.name,
          get_crate_settings_for_component component cu m))) hk
    rw [List.map_map] at this
    exact this
  · apply List.all_eq_true.mpr
    intro e he
    apply List.all_eq_true.mpr
    intro k hk
    rcases List.mem_map.mp (mem_ohmCollect he) with ⟨c, _, hce⟩
    rw [← hce] at hk
    simp only [get_crate_settings_for_component] at hk
    have hk2 := mem_keys_ohmCollect hk
    rcases List.mem_map.mp hk2 with ⟨d, hd, hdk⟩
    rcases List.mem_filterMap.mp hd with ⟨r, _, hr⟩
    obtain ⟨cc, _, hccne, _, hname, _⟩ := resolveDep_some_spec hr
    rw [← hdk, hname]
    simpa using hccne

/-- C7: the global settings record's version field is always `some` of the
main package's version, while a per-component override record's version
field is `some` exactly when a package with the component's owning package
id exists in the snapshot's package list. -/
theorem version_fields_global_and_override (m : Metadata)
    (cu : CompilationUnitMeta) (p : PackageMeta) (c : ComponentMeta) :
    (get_global_crate_settings cu p).version = some p.version
    ∧ (get_crate_settings_for_component c cu m).version.isSome
        = m.packages.any (fun q => q.id == c.package) := by
  constructor
  · rfl
  · show ((m.packages.find? (fun q => q.id == c.package)).map
      (fun q => q.version)).isSome = m.packages.any (fun q => q.id == c.package)
    cases hf : m.packages.find? (fun q => q.id == c.package) with
    | none =>
      have hnone : ∀ q ∈ m.packages, ¬ (q.id == c.package) = true := by
        intro q hq
        exact List.find?_eq_none.mp hf q hq
      simp only [Option.map_none', Option.isSome_none]
      symm
      rw [Bool.eq_false_iff]
      intro hany
      rcases List.any_eq_true.mp hany with ⟨q, hq, hqt⟩
      exact hnone q hq hqt
    | some q =>
      simp only [Option.map_some', Option.isSome_some]
      symm
      apply List.any_eq_true.mpr
      refine ⟨q, List.mem_of_find?_eq_some hf, ?_⟩
      have hpq := List.find?_some hf
      exact hpq

lemma any_beq_eq_contains (l : List String) (a : String) :
    l.any (fun f => f == a) = l.contains a := by
  induction l with
  | nil => rfl
  | cons x t ih =>
    simp only [List.any_cons, List.contains_cons, ih]
    congr 1
    by_cases hx : x = a
    · simp [hx]
    · simp [hx, Ne.symm hx]

lemma contains_append_singleton (l : List String) (a s : String) (h : a ≠ s) :
    (l ++ [s]).contains a = l.contains a := by
  induction l with
  | nil => simp [h]
  | cons x t ih => simp_all [List.contains_cons]

/-- C4: the edition parser is total: for every optional package and crate
name it returns a defined edition value; on a missing package, a missing
edition field, or an unrecognized edition string it returns the compiler's
default edition, warning exactly when a value was present but unparseable
(and `utils.rs`'s copy agrees with `main.rs`'s). -/
theorem get_edition_total_and_default (package : Option PackageMeta)
    (n : String) :
    get_edition none n = Edition.default
    ∧ (∀ p : PackageMeta, p.edition = none →
        get_edition (some p) n = Edition.default)
    ∧ (∀ (p : PackageMeta) (s : String), p.edition = some s →
        parseEdition s = none → get_edition (some p) n = Edition.default)
    ∧ (∀ (p : PackageMeta) (s : String) (e : Edition), p.edition = some s →
        parseEdition s = some e → get_edition (some p) n = e)
    ∧ (get_edition_warns package = true ↔
        ∃ s, package.bind (fun p => p.edition) = some s ∧ parseEdition s = none)
    ∧ utils.scarb_package_edition package n = get_edition package n := by
  refine ⟨rfl, ?_, ?_, ?_, ?_, rfl⟩
  · intro p hp
    simp [get_edition, hp]
  · intro p s hp hs
    simp [get_edition, hp, hs]
  · intro p s e hp hs
    simp [get_edition, hp, hs]
  · unfold get_edition_warns
    cases hb : package.bind (fun p => p.edition) with
    | none => simp
    | some s => cases hps : parseEdition s <;> simp [hps]

/-- Witness for C4: a package without an edition and one with an
unrecognized edition string both fall back to the default edition, a valid
edition string parses, and the warning fires only in the unparseable case. -/
theorem get_edition_total_and_default_witness :
    get_edition (some pkgNoEdition) "e0" = Edition.default
    ∧ get_edition (some pkgBadEdition) "e1" = Edition.default
    ∧ get_edition (some pkgGoodEdition) "e2" = Edition.V2024_07
    ∧ get_edition_warns (some pkgBadEdition) = true := by
  refine ⟨?_, ?_, ?_, ?_⟩
  · exact (get_edition_total_and_default (some pkgNoEdition) "e0").2.1
      pkgNoEdition rfl
  · exact (get_edition_total_and_default (some pkgBadEdition) "e1").2.2.1
      pkgBadEdition "bogus" rfl rfl
  · exact (get_edition_total_and_default (some pkgGoodEdition) "e2").2.2.2.1
      pkgGoodEdition "2024_07" Edition.V2024_07 rfl rfl
  · exact ((get_edition_total_and_default (some pkgBadEdition)
      "e1").2.2.2.2.1).mpr ⟨"bogus", rfl, rfl⟩

/-- C5: the conditional-compilation converter never fails the run: a cfg
list whose every entry round-trips yields `some` re-encoded set, a
structurally incompatible entry makes the whole conversion yield `none`
(with a warning exactly in that case), and a component whose cfg fails
conversion still yields a complete settings record with an absent cfg set. -/
theorem cfg_converter_best_effort (cfgs : List ScarbCfg) (n : String)
    (component : ComponentMeta) (unit : CompilationUnitMeta) (m : Metadata) :
    ((∀ s ∈ cfgs.map serializeScarbCfg, (parseCairoCfg s).isSome = true) →
        ∃ cs, scarb_cfg_set_to_cairo cfgs n = some cs)
    ∧ ((∃ s ∈ cfgs.map serializeScarbCfg, parseCairoCfg s = none) →
        scarb_cfg_set_to_cairo cfgs n = none)
    ∧ (scarb_cfg_set_to_cairo_warns cfgs = true ↔
        scarb_cfg_set_to_cairo cfgs n = none)
    ∧ (component.cfg = some cfgs →
        scarb_cfg_set_to_cairo cfgs component.name = none →
        (get_crate_settings_for_component component unit m).cfg_set = none)
    ∧ utils.scarb_cfg_set_to_cairo cfgs n = scarb_cfg_set_to_cairo cfgs n := by
  refine ⟨?_, ?_, ?_, ?_, rfl⟩
  · intro h
    have := (parseCairoCfgList_isSome_iff (cfgs.map serializeScarbCfg)).mpr h
    exact Option.isSome_iff_exists.mp this
  · rintro ⟨s, hs, hnone⟩
    cases hres : scarb_cfg_set_to_cairo cfgs n with
    | none => rfl
    | some cs =>
      have hsome : (parseCairoCfgList (cfgs.map serializeScarbCfg)).isSome
          = true := by
        rw [show parseCairoCfgList (cfgs.map serializeScarbCfg) = some cs
          from hres]
        rfl
      have := (parseCairoCfgList_isSome_iff _).mp hsome s hs
      rw [hnone] at this
      cases this
  · show (parseCairoCfgList (cfgs.map serializeScarbCfg)).isNone = true ↔ _
    rw [Option.isNone_iff_eq_none]
    exact Iff.rfl
  · intro hc hnone
    show component.cfg.bind
      (fun cfg => scarb_cfg_set_to_cairo cfg component.name) = none
    rw [hc, option_some_bind]
    exact hnone

/-- Witness for C5: the bare cfg flag `a=b` serializes to a string the
native representation rejects, so conversion yields `none`, and the sample
component carrying it still resolves to a settings record with an absent
cfg set. -/
theorem cfg_converter_best_effort_witness :
    scarb_cfg_set_to_cairo [ScarbCfg.flag "a=b"] "b" = none
    ∧ (get_crate_settings_for_component badCfgComponent sampleLibUnit
        sampleMetadata).cfg_set = none := by
  have h := cfg_converter_best_effort [ScarbCfg.flag "a=b"] "b"
    badCfgComponent sampleLibUnit sampleMetadata
  have h1 : scarb_cfg_set_to_cairo [ScarbCfg.flag "a=b"] "b" = none :=
    h.2.1 ⟨"a=b", by simp [serializeScarbCfg], rfl⟩
  exact ⟨h1, h.2.2.2.1 rfl h1⟩

/-- C6 counterexample: the experimental-features extractor does not test an
associated-item-constraints flag: a package declaring exactly
`associated_item_constraints` yields the same all-false flag record as an
absent package, so the flag set carries no such flag. -/
theorem experimental_features_assoc_item_cex :
    get_experimental_features (some pkgAssocItem)
        = get_experimental_features none
    ∧ get_experimental_features (some pkgAssocItem)
        = { negative_impls := false, coupons := false } :=
  ⟨rfl, rfl⟩

/-- C6 (amended): the experimental-features extractor tests membership of
exactly the two fixed flag names `negative_impls` and `coupons` against the
package's declared experimental-feature name list; for an absent package
both flags are false, and any other declared name is silently ignored
(and `utils.rs`'s copy agrees with `main.rs`'s). -/
theorem experimental_features_two_flags (package : Option PackageMeta) :
    get_experimental_features none
        = { negative_impls := false, coupons := false }
    ∧ (∀ p : PackageMeta, (get_experimental_features (some p)).negative_impls
        = p.experimental_features.contains "negative_impls")
    ∧ (∀ p : PackageMeta, (get_experimental_features (some p)).coupons
        = p.experimental_features.contains "coupons")
    ∧ (∀ (p : PackageMeta) (s : String), s ≠ "negative_impls" →
        s ≠ "coupons" →
        get_experimental_features (some { p with experimental_features :=
          p.experimental_features ++ [s] })
          = get_experimental_features (some p))
    ∧ utils.scarb_package_experimental_features package
        = get_experimental_features package := by
  refine ⟨rfl, fun p => rfl, fun p => rfl, ?_, ?_⟩
  · intro p s h1 h2
    unfold get_experimental_features
    simp only
    congr 1
    · exact contains_append_singleton _ _ _ (Ne.symm h1)
    · exact contains_append_singleton _ _ _ (Ne.symm h2)
  · unfold utils.scarb_package_experimental_features get_experimental_features
    cases package with
    | none => rfl
    | some p =>
      simp only
      congr 1 <;> exact any_beq_eq_contains _ _

/-- Witness for C6: appending the unrecognized name
`associated_item_constraints` to a package's declared feature list leaves
the extracted flag record unchanged. -/
theorem experimental_features_two_flags_witness :
    get_experimental_features (some { pkgNegImpls with experimental_features :=
        pkgNegImpls.experimental_features ++ ["associated_item_constraints"] })
      = get_experimental_features (some pkgNegImpls) :=
  (experimental_features_two_flags none).2.2.2.1 pkgNegImpls
    "associated_item_constraints" (by decide) (by decide)

/-- C8: each override record's dependency mapping is built by resolving each
declared dependency reference by component id against the non-excluded
components of the same compilation unit, emitting the matched component's
name mapped to its optional discriminator; a reference with no matching
component id among the non-`core` components resolves to nothing and is
dropped. -/
theorem override_dependencies_resolution (component : ComponentMeta)
    (unit : CompilationUnitMeta) (m : Metadata) :
    (∀ e ∈ (get_crate_settings_for_component component unit m).dependencies,
        ∃ d ∈ component.dependencies.getD [],
          resolveDep unit d.id = some e ∧
          ∃ c ∈ unit.components, c.name ≠ "core" ∧ c.id = some d.id ∧
            e.1 = c.name ∧ e.2.discriminator = c.discriminator)
    ∧ (∀ d ∈ component.dependencies.getD [],
        (∀ c ∈ unit.components, c.name ≠ "core" → c.id ≠ some d.id) →
        resolveDep unit d.id = none) := by
  constructor
  · intro e he
    have he2 : e ∈ ohmCollect ((component.dependencies.getD []).filterMap
        (fun d => resolveDep unit d.id)) := he
    rcases List.mem_filterMap.mp (mem_ohmCollect he2) with ⟨d, hd, hr⟩
    exact ⟨d, hd, hr, resolveDep_some_spec hr⟩
  · intro d _ h
    exact resolveDep_none_of_no_match h

/-- Witness for C8: in the sample unit, the main component's reference to
`id-q` resolves to component `q` with its discriminator, and its reference
to the dangling id `id-miss` resolves to nothing. -/
theorem override_dependencies_resolution_witness :
    (∃ d ∈ pComponent.dependencies.getD [],
        resolveDep sampleLibUnit d.id
          = some ("q", { discriminator := some "dq" }) ∧
        ∃ c ∈ sampleLibUnit.components, c.name ≠ "core" ∧ c.id = some d.id ∧
          ("q", ({ discriminator := some "dq" } : DependencySettings)).1
            = c.name ∧
          ("q", ({ discriminator := some "dq" } :
            DependencySettings)).2.discriminator = c.discriminator)
    ∧ resolveDep sampleLibUnit "id-miss" = none := by
  constructor
  · exact (override_dependencies_resolution pComponent sampleLibUnit
      sampleMetadata).1 ("q", { discriminator := some "dq" }) (by decide)
  · exact (override_dependencies_resolution pComponent sampleLibUnit
      sampleMetadata).2 ⟨"id-miss"⟩ (by decide) (by decide)

end ScarbEject
